import Mathlib

/-!
Shallow embedding of the mysh shell (mysh.h, mysh_core.c, mysh_cmds.c):
data model, tokenizer, line parser, job-execution engine and builtins,
followed by theorems about the parser and the engine.

Operating-system effects (fork, waitpid, pipe, open, dup2, chdir, getcwd,
access) are modelled by an explicit environment `Env` that records the
outcome of each call; memory allocation is modelled as infallible.
-/

namespace Mysh

/-! ## Data model (src/mysh.h) -/

/-- `condition_t` from mysh.h. -/
inductive condition_t
  | COND_NONE
  | COND_AND
  | COND_OR
deriving DecidableEq, Repr

/-- `exec_action_t` from mysh.h. -/
inductive exec_action_t
  | EXEC_CONTINUE
  | EXEC_EXIT
  | EXEC_DIE
deriving DecidableEq, Repr

/-- `job_t` from mysh.h: `argvv` is the list of stages (each a non-NULL
argv list), `num_procs` is `argvv.length`. -/
structure job_t where
  argvv : List (List String)
  infile : Option String
  outfile : Option String
  cond : condition_t
deriving DecidableEq, Repr

/-- The all-zero `job_t` produced by `memset(job, 0, sizeof(job_t))`. -/
def emptyJob : job_t := ⟨[], none, none, .COND_NONE⟩

/-! ## Tokenizer (`simple_tokenize`, src/mysh_core.c) -/

/-- C-locale `isspace`. -/
def isSpaceC (c : Char) : Bool :=
  c = ' ' || c = '\t' || c = '\n' || c = Char.ofNat 11 || c = Char.ofNat 12 || c = '\r'

/-- The three single-character operator tokens `|`, `<`, `>`. -/
def isOpChar (c : Char) : Bool :=
  c = '|' || c = '<' || c = '>'

/-- Characters that continue a word token: anything but NUL, whitespace
and the operator characters (mirrors the inner scan loop of
`simple_tokenize`). -/
def isWordChar (c : Char) : Bool :=
  !(c = Char.ofNat 0 || isSpaceC c || isOpChar c)

/-- `MAX_TOKENS` from mysh.h. -/
def MAX_TOKENS : Nat := 1024

/-- `MAX_COMMANDS` from mysh.h. -/
def MAX_COMMANDS : Nat := 64

/-- `MAX_ARGS` from mysh.h. -/
def MAX_ARGS : Nat := 64

/-- Loop body of `simple_tokenize`: `t` is the number of tokens emitted so
far, `acc` the emitted tokens in reverse order.  The loop stops at NUL, at
a `#` beginning a token, or once `MAX_TOKENS` tokens have been emitted
(silent truncation, exactly as `while (*p && t < MAX_TOKENS)` does).
The `fuel` argument only makes the recursion structural; every step
consumes at least one character, so with `fuel` at least the length of
the character list (as `simple_tokenize` passes) it is never exhausted. -/
def tokAux : Nat → List Char → Nat → List String → List String
  | 0, _, _, acc => acc.reverse
  | _ + 1, [], _, acc => acc.reverse
  | fuel + 1, c :: cs, t, acc =>
    if MAX_TOKENS ≤ t then acc.reverse
    else if c = Char.ofNat 0 then acc.reverse
    else if c = '#' then acc.reverse
    else if isSpaceC c then tokAux fuel cs t acc
    else if isOpChar c then tokAux fuel cs (t + 1) (String.singleton c :: acc)
    else
      tokAux fuel (cs.dropWhile isWordChar) (t + 1)
        (String.mk (c :: cs.takeWhile isWordChar) :: acc)

/-- `simple_tokenize` from mysh_core.c, restricted to its infallible
behaviour (`safe_strdup` never fails in the model). -/
def simple_tokenize (line : String) : List String :=
  tokAux (line.data.length + 1) line.data 0 []

/-! ## Parser (`parse_line`, src/mysh_core.c) -/

/-- The parser's loop state: `done` are the finished stages
(`temp_argvs[0..current_cmd_idx-1]`), `cur` the stage being built
(`temp_argvs[current_cmd_idx]`, with `current_argc = cur.length`), and
`inf`/`outf` the redirection targets recorded so far. -/
structure PState where
  done : List (List String)
  cur : List String
  inf : Option String
  outf : Option String
deriving DecidableEq, Repr

/-- The token-processing loop of `parse_line` (the `while (current_token <
token_count)` loop plus the final empty-command check), returning either
the error message passed to `print_mysh_error` or the final stage list and
redirection targets. -/
def parseLoop (s : PState) : List String → Except String (List (List String) × Option String × Option String)
  | [] =>
    if s.cur = [] then .error "empty command at end of line"
    else .ok (s.done ++ [s.cur], s.inf, s.outf)
  | t :: rest =>
    if t = "|" then
      if s.cur = [] then .error "empty command before pipe"
      else if MAX_COMMANDS - 1 ≤ s.done.length then .error "too many commands in pipeline"
      else parseLoop ⟨s.done ++ [s.cur], [], s.inf, s.outf⟩ rest
    else if t = "<" then
      match rest with
      | [] => .error "redirection requires a filename"
      | f :: rest2 =>
        if s.inf.isSome then .error "multiple input redirections"
        else parseLoop ⟨s.done, s.cur, some f, s.outf⟩ rest2
    else if t = ">" then
      match rest with
      | [] => .error "redirection requires a filename"
      | f :: rest2 =>
        if s.outf.isSome then .error "multiple output redirections"
        else parseLoop ⟨s.done, s.cur, s.inf, some f⟩ rest2
    else if s.cur = [] ∧ s.done ≠ [] ∧ (t = "and" ∨ t = "or") then
      .error "conditional may not appear after a pipe"
    else if MAX_ARGS - 1 ≤ s.cur.length then
      .error "too many arguments for command"
    else
      parseLoop ⟨s.done, s.cur ++ [t], s.inf, s.outf⟩ rest

/-- The leading-conditional check of `parse_line` (tokens[0] equal to
`and` or `or`). -/
def stripCond : List String → condition_t × List String
  | [] => (.COND_NONE, [])
  | t :: rest =>
    if t = "and" then (.COND_AND, rest)
    else if t = "or" then (.COND_OR, rest)
    else (.COND_NONE, t :: rest)

/-- Outcome of parsing one token list: empty/comment-only line, syntax
error (with the reported message), or a parsed job. -/
inductive ParseOut
  | empty
  | err (msg : String)
  | ok (j : job_t)
deriving DecidableEq, Repr

/-- `parse_line` after tokenization: conditional stripping, the
conditional-with-no-command check, and the token loop. -/
def parse_tokens (toks : List String) : ParseOut :=
  if toks = [] then .empty
  else
    let sc := stripCond toks
    if sc.2 = [] then
      if sc.1 ≠ .COND_NONE then .err "conditional must be followed by a command"
      else .ok ⟨[], none, none, .COND_NONE⟩
    else
      match parseLoop ⟨[], [], none, none⟩ sc.2 with
      | .error m => .err m
      | .ok (stages, i, o) => .ok ⟨stages, i, o, sc.1⟩

/-- `parse_line` from mysh_core.c: returns the C return value (1 success,
0 empty line, -1 syntax error) together with the caller's `job_t` after
the call (`job0` is the job as passed in; on error the job is `memset` to
zero, on an empty line it is left untouched). -/
def parse_line (line : String) (job0 : job_t) : Int × job_t :=
  match parse_tokens (simple_tokenize line) with
  | .empty => (0, job0)
  | .err _ => (-1, emptyJob)
  | .ok j => (1, j)

/-! ## Statement-side helpers for describing token sequences -/

/-- The token sequence of a pipeline: the stages' word tokens joined by
`|` tokens (used only to state properties about the parser). -/
def pipeJoin : List (List String) → List String
  | [] => []
  | [st] => st
  | st :: rest => st ++ "|" :: pipeJoin rest

/-- Space-joined concatenation, following the spec's words for `die`
("writes all of its arguments, space-joined"). -/
def spaceJoin : List String → String
  | [] => ""
  | [a] => a
  | a :: rest => a ++ " " ++ spaceJoin rest

/-- One non-failing, non-final iteration of the `parse_line` token loop:
`PStep (s, ts) (s', ts')` holds when the loop in state `s` with remaining
tokens `ts` continues into state `s'` with remaining tokens `ts'`.
Used to speak about the configurations the parser passes through. -/
inductive PStep : PState × List String → PState × List String → Prop
  | pipe (done cur inf outf r) : cur ≠ [] → done.length < MAX_COMMANDS - 1 →
      PStep (⟨done, cur, inf, outf⟩, "|" :: r) (⟨done ++ [cur], [], inf, outf⟩, r)
  | redir_in (done cur outf f r) :
      PStep (⟨done, cur, none, outf⟩, "<" :: f :: r) (⟨done, cur, some f, outf⟩, r)
  | redir_out (done cur inf f r) :
      PStep (⟨done, cur, inf, none⟩, ">" :: f :: r) (⟨done, cur, inf, some f⟩, r)
  | word (done cur inf outf t r) : t ≠ "|" → t ≠ "<" → t ≠ ">" →
      ¬(cur = [] ∧ done ≠ [] ∧ (t = "and" ∨ t = "or")) → cur.length < MAX_ARGS - 1 →
      PStep (⟨done, cur, inf, outf⟩, t :: r) (⟨done, cur ++ [t], inf, outf⟩, r)

/-! ## Execution engine (src/mysh_cmds.c)

Operating-system calls are modelled by an environment recording the
outcome of each call; child exit statuses are recorded per pipeline stage
index. -/

/-- Outcomes of the OS calls made while executing one job.
`fsExec p` models `access(p, X_OK) == 0`; `chdirOk d` models
`chdir(d) == 0`; `cwd` models the `getcwd` result; `parentRedirOk i o`
models success of the whole save/open/dup2 sequence the parent-builtin
path performs for redirections `i`/`o`; `pipeOk i` models success of
creating pipe `i`; `forkOk i` models success of forking stage `i`;
`waitOk i` models `waitpid(pids[i], ...) >= 0`; `exited i` models
`WIFEXITED` and `code i` models `WEXITSTATUS` for stage `i`. -/
structure Env where
  fsExec : String → Bool
  chdirOk : String → Bool
  cwd : Option String
  parentRedirOk : Option String → Option String → Bool
  pipeOk : Nat → Bool
  forkOk : Nat → Bool
  waitOk : Nat → Bool
  exited : Nat → Bool
  code : Nat → Nat

/-- `is_builtin` from mysh_cmds.c. -/
def is_builtin (name : String) : Bool :=
  name = "cd" || name = "pwd" || name = "which" || name = "exit" || name = "die"

/-- `builtin_cd`: requires exactly one argument, then `chdir`. -/
def builtin_cd (env : Env) (argv : List String) : Nat :=
  match argv with
  | [_, dir] => if env.chdirOk dir then 0 else 1
  | _ => 1

/-- `builtin_pwd`: rejects any argument, then reports `getcwd`.
Returns (status, stdout text). -/
def builtin_pwd (env : Env) (argv : List String) : Nat × String :=
  if 2 ≤ argv.length then (1, "")
  else
    match env.cwd with
    | none => (1, "")
    | some c => (0, c ++ "\n")

/-- The directory list searched by `resolve_program_path`. -/
def searchDirs (fs : String → Bool) (name : String) : List String → Option String
  | [] => none
  | d :: rest =>
    let full := d ++ "/" ++ name
    if fs full then some full else searchDirs fs name rest

/-- `resolve_program_path` from mysh_cmds.c: names containing `/` are
used verbatim, builtins are never searched, otherwise the three fixed
directories are searched in order. -/
def resolve_program_path (fs : String → Bool) (cmd_name : String) : Option String :=
  if cmd_name.data.contains '/' then some cmd_name
  else if is_builtin cmd_name then none
  else searchDirs fs cmd_name ["/usr/local/bin", "/usr/bin", "/bin"]

/-- `builtin_which`: requires exactly one argument; fails silently on a
builtin name or a failed resolution; otherwise prints the resolved path.
Returns (status, stdout text). -/
def builtin_which (fs : String → Bool) (argv : List String) : Nat × String :=
  match argv with
  | [_, name] =>
    if is_builtin name then (1, "")
    else
      match resolve_program_path fs name with
      | none => (1, "")
      | some p => (0, p ++ "\n")
  | _ => (1, "")

/-- `builtin_exit`: ignores arguments, succeeds, requests `EXEC_EXIT`.
Returns (status, action set through `action_out`). -/
def builtin_exit (_argv : List String) : Nat × exec_action_t :=
  (0, .EXEC_EXIT)

/-- The stderr text produced by `builtin_die`'s printing loop
(`argv[1]`, then `' '` before each further argument). -/
def dieJoin : List String → String
  | [] => ""
  | a :: rest => rest.foldl (fun acc w => acc ++ " " ++ w) a

/-- `builtin_die`: prints its arguments space-separated plus a newline to
stderr when there is at least one argument, reports failure, requests
`EXEC_DIE`.  Returns (status, stderr text, action set through
`action_out`). -/
def builtin_die (argv : List String) : Nat × String × exec_action_t :=
  let errText :=
    match argv.drop 1 with
    | [] => ""
    | args => dieJoin args ++ "\n"
  (1, errText, .EXEC_DIE)

/-- `run_builtin_parent` from mysh_cmds.c, as (status, action).  The C
function's `-1` return for a non-builtin leaves the caller's status at
`1`, which is what the catch-all case models. -/
def run_builtin_parent (env : Env) (argv : List String) : Nat × exec_action_t :=
  match argv with
  | [] => (0, .EXEC_CONTINUE)
  | cmd :: _ =>
    if cmd = "cd" then (builtin_cd env argv, .EXEC_CONTINUE)
    else if cmd = "pwd" then ((builtin_pwd env argv).1, .EXEC_CONTINUE)
    else if cmd = "which" then ((builtin_which env.fsExec argv).1, .EXEC_CONTINUE)
    else if cmd = "exit" then builtin_exit argv
    else if cmd = "die" then ((builtin_die argv).1, (builtin_die argv).2.2)
    else (1, .EXEC_CONTINUE)

/-- `run_simple_command` from mysh_cmds.c, as (status, forked child
indices, waited child indices). -/
def run_simple_command (env : Env) (job : job_t) : Nat × List Nat × List Nat :=
  match job.argvv.head? with
  | none => (0, [], [])
  | some [] => (0, [], [])
  | some (_ :: _) =>
    if env.forkOk 0 then
      let st := if env.waitOk 0 then (if env.exited 0 then env.code 0 else 1) else 1
      (st, [0], [0])
    else (1, [], [])

/-- The fork loop of `run_pipeline`: returns `none` when every stage was
forked, or `some i` for the first stage `i` that was empty or whose fork
failed (in both cases the parent waits for children `0..i-1` only). -/
def forkPhase (env : Env) : List (List String) → Nat → Option Nat
  | [], _ => none
  | s :: rest, i =>
    if s = [] then some i
    else if env.forkOk i then forkPhase env rest (i + 1) else some i

/-- One iteration of `run_pipeline`'s wait loop: a failed `waitpid` is
skipped, and only the last stage's normal exit updates `last_status`. -/
def waitStep (env : Env) (n : Nat) (st : Nat) (i : Nat) : Nat :=
  if env.waitOk i then (if i = n - 1 ∧ env.exited i then env.code i else st) else st

/-- `run_pipeline` from mysh_cmds.c, as (status, forked child indices,
waited child indices). -/
def run_pipeline (env : Env) (job : job_t) : Nat × List Nat × List Nat :=
  let n := job.argvv.length
  if n < 2 then run_simple_command env job
  else if (List.range (n - 1)).all env.pipeOk then
    match forkPhase env job.argvv 0 with
    | some i => (1, List.range i, List.range i)
    | none => ((List.range n).foldl (waitStep env n) 1, List.range n, List.range n)
  else (1, [], [])

/-- The observable result of `execute_job`: the returned `exec_action_t`,
the value stored in `*cmd_status`, and the pipeline children that were
forked and waited for. -/
structure ExecResult where
  action : exec_action_t
  status : Nat
  forked : List Nat
  waited : List Nat
deriving DecidableEq, Repr

/-- `execute_job` from mysh_cmds.c: the exit/die scan, the
parent-process builtin fast path (with save/restore redirection), and the
general fork path. -/
def execute_job (env : Env) (job : job_t) : ExecResult :=
  let has_die := job.argvv.any (fun s => s.head? = some "die")
  let has_exit := job.argvv.any (fun s => s.head? = some "exit")
  let scanAction : exec_action_t :=
    if has_die then .EXEC_DIE else if has_exit then .EXEC_EXIT else .EXEC_CONTINUE
  match job.argvv with
  | [] => ⟨.EXEC_CONTINUE, 0, [], []⟩
  | [cmd :: args] =>
    if is_builtin cmd then
      if env.parentRedirOk job.infile job.outfile then
        let r := run_builtin_parent env (cmd :: args)
        if r.2 ≠ .EXEC_CONTINUE then ⟨r.2, r.1, [], []⟩
        else ⟨scanAction, r.1, [], []⟩
      else ⟨scanAction, 1, [], []⟩
    else
      let r := run_simple_command env job
      ⟨scanAction, r.1, r.2.1, r.2.2⟩
  | [[]] =>
    let r := run_simple_command env job
    ⟨scanAction, r.1, r.2.1, r.2.2⟩
  | _ :: _ :: _ =>
    let r := run_pipeline env job
    ⟨scanAction, r.1, r.2.1, r.2.2⟩

/-! ## Parser lemmas -/

theorem parseLoop_nil (s : PState) :
    parseLoop s [] =
      if s.cur = [] then .error "empty command at end of line"
      else .ok (s.done ++ [s.cur], s.inf, s.outf) := by
  rw [parseLoop.eq_def]

theorem parseLoop_pipe (s : PState) (r : List String) (hcur : s.cur ≠ [])
    (hlen : s.done.length < MAX_COMMANDS - 1) :
    parseLoop s ("|" :: r) = parseLoop ⟨s.done ++ [s.cur], [], s.inf, s.outf⟩ r := by
  rw [parseLoop.eq_def]
  simp [hcur, Nat.not_le.mpr hlen]

theorem parseLoop_pipe_overflow (s : PState) (r : List String) (hcur : s.cur ≠ [])
    (hlen : MAX_COMMANDS - 1 ≤ s.done.length) :
    parseLoop s ("|" :: r) = .error "too many commands in pipeline" := by
  rw [parseLoop.eq_def]
  simp [hcur, hlen]

theorem parseLoop_redir_in (s : PState) (f : String) (r : List String)
    (hin : s.inf = none) :
    parseLoop s ("<" :: f :: r) = parseLoop ⟨s.done, s.cur, some f, s.outf⟩ r := by
  rw [parseLoop.eq_def]
  simp [hin]

theorem parseLoop_redir_out (s : PState) (f : String) (r : List String)
    (hout : s.outf = none) :
    parseLoop s (">" :: f :: r) = parseLoop ⟨s.done, s.cur, s.inf, some f⟩ r := by
  rw [parseLoop.eq_def]
  simp [hout]

theorem parseLoop_word (s : PState) (t : String) (r : List String)
    (h1 : t ≠ "|") (h2 : t ≠ "<") (h3 : t ≠ ">")
    (hco : ¬(s.cur = [] ∧ s.done ≠ [] ∧ (t = "and" ∨ t = "or")))
    (hlen : s.cur.length < MAX_ARGS - 1) :
    parseLoop s (t :: r) = parseLoop ⟨s.done, s.cur ++ [t], s.inf, s.outf⟩ r := by
  rw [parseLoop.eq_def]
  simp [h1, h2, h3, hco, Nat.not_le.mpr hlen]

theorem parseLoop_word_overflow (s : PState) (t : String) (r : List String)
    (h1 : t ≠ "|") (h2 : t ≠ "<") (h3 : t ≠ ">")
    (hco : ¬(s.cur = [] ∧ s.done ≠ [] ∧ (t = "and" ∨ t = "or")))
    (hlen : MAX_ARGS - 1 ≤ s.cur.length) :
    parseLoop s (t :: r) = .error "too many arguments for command" := by
  rw [parseLoop.eq_def]
  simp [h1, h2, h3, hco, hlen]

theorem parseLoop_cond_after_pipe (s : PState) (t : String) (r : List String)
    (hc : t = "and" ∨ t = "or") (hcur : s.cur = []) (hdone : s.done ≠ []) :
    parseLoop s (t :: r) = .error "conditional may not appear after a pipe" := by
  have h1 : t ≠ "|" := by rcases hc with h | h <;> simp [h]
  have h2 : t ≠ "<" := by rcases hc with h | h <;> simp [h]
  have h3 : t ≠ ">" := by rcases hc with h | h <;> simp [h]
  rw [parseLoop.eq_def]
  simp [h1, h2, h3, hcur, hdone, hc]

theorem parseLoop_words (ws : List String) :
    ∀ (s : PState) (rest : List String),
      (∀ w ∈ ws, w ≠ "|" ∧ w ≠ "<" ∧ w ≠ ">") → s.cur ≠ [] →
      s.cur.length + ws.length ≤ MAX_ARGS - 1 →
      parseLoop s (ws ++ rest) = parseLoop ⟨s.done, s.cur ++ ws, s.inf, s.outf⟩ rest := by
  induction ws with
  | nil =>
    intro s rest _ _ _
    simp
  | cons w ws ih =>
    intro s rest hw hcur hlen
    have hw0 := hw w (List.mem_cons_self _ _)
    have hlt : s.cur.length < MAX_ARGS - 1 := by
      simp only [List.length_cons] at hlen
      omega
    rw [List.cons_append,
      parseLoop_word s w _ hw0.1 hw0.2.1 hw0.2.2 (by simp [hcur]) hlt]
    have := ih ⟨s.done, s.cur ++ [w], s.inf, s.outf⟩ rest
      (fun w' h => hw w' (List.mem_cons_of_mem _ h)) (by simp)
      (by simp only [List.length_cons] at hlen; simp; omega)
    simpa [List.append_assoc] using this

theorem parseLoop_firstWord (s : PState) (t : String) (rest : List String)
    (h1 : t ≠ "|") (h2 : t ≠ "<") (h3 : t ≠ ">")
    (hcd : s.done ≠ [] → t ≠ "and" ∧ t ≠ "or") (hcur : s.cur = []) :
    parseLoop s (t :: rest) = parseLoop ⟨s.done, [t], s.inf, s.outf⟩ rest := by
  have hco : ¬(s.cur = [] ∧ s.done ≠ [] ∧ (t = "and" ∨ t = "or")) := by
    rintro ⟨-, hd, hor⟩
    rcases hcd hd with ⟨ha, ho⟩
    rcases hor with h | h
    · exact ha h
    · exact ho h
  have hlt : s.cur.length < MAX_ARGS - 1 := by
    simp [hcur, MAX_ARGS]
  have := parseLoop_word s t rest h1 h2 h3 hco hlt
  simpa [hcur] using this

theorem parseLoop_stage (st : List String) (s : PState) (rest : List String)
    (hne : st ≠ [])
    (hw : ∀ w ∈ st, w ≠ "|" ∧ w ≠ "<" ∧ w ≠ ">")
    (hcd : s.done ≠ [] → st.head? ≠ some "and" ∧ st.head? ≠ some "or")
    (hlen : st.length ≤ MAX_ARGS - 1)
    (hcur : s.cur = []) :
    parseLoop s (st ++ rest) = parseLoop ⟨s.done, st, s.inf, s.outf⟩ rest := by
  cases st with
  | nil => exact absurd rfl hne
  | cons w ws =>
    have hw0 := hw w (List.mem_cons_self _ _)
    have hcd' : s.done ≠ [] → w ≠ "and" ∧ w ≠ "or" := by
      intro hd
      have := hcd hd
      simp only [List.head?_cons] at this
      exact ⟨fun h => this.1 (by rw [h]), fun h => this.2 (by rw [h])⟩
    rw [List.cons_append,
      parseLoop_firstWord s w _ hw0.1 hw0.2.1 hw0.2.2 hcd' hcur]
    have := parseLoop_words ws ⟨s.done, [w], s.inf, s.outf⟩ rest
      (fun w' h => hw w' (List.mem_cons_of_mem _ h)) (by simp)
      (by simp only [List.length_cons] at hlen; simp; omega)
    simpa using this

theorem pipeJoin_cons_ne (a : List String) (l : List (List String)) (h : l ≠ []) :
    pipeJoin (a :: l) = a ++ "|" :: pipeJoin l := by
  cases l with
  | nil => exact absurd rfl h
  | cons b l2 => rfl

theorem parseLoop_pipeJoin (stages : List (List String)) (last : List String) :
    ∀ (s : PState) (rest : List String),
      s.cur = [] →
      (∀ st ∈ stages ++ [last], st ≠ [] ∧ st.length ≤ MAX_ARGS - 1 ∧
        ∀ w ∈ st, w ≠ "|" ∧ w ≠ "<" ∧ w ≠ ">") →
      (∀ st ∈ stages ++ [last], st.head? ≠ some "and" ∧ st.head? ≠ some "or") →
      s.done.length + stages.length ≤ MAX_COMMANDS - 1 →
      parseLoop s (pipeJoin (stages ++ [last]) ++ rest) =
        parseLoop ⟨s.done ++ stages, last, s.inf, s.outf⟩ rest := by
  induction stages with
  | nil =>
    intro s rest hcur hst hcd _
    have h0 := hst last (by simp)
    have hc0 : s.done ≠ [] → last.head? ≠ some "and" ∧ last.head? ≠ some "or" :=
      fun _ => hcd last (by simp)
    have := parseLoop_stage last s rest h0.1 h0.2.2 hc0 h0.2.1 hcur
    simpa using this
  | cons st more ih =>
    intro s rest hcur hst hcd hbound
    have h0 := hst st (by simp)
    have hc0 : s.done ≠ [] → st.head? ≠ some "and" ∧ st.head? ≠ some "or" :=
      fun _ => hcd st (by simp)
    have hcd0 := hc0
    rw [List.cons_append, pipeJoin_cons_ne st _ (by simp), List.append_assoc,
      List.cons_append,
      parseLoop_stage st s _ h0.1 h0.2.2 hc0 h0.2.1 hcur,
      parseLoop_pipe ⟨s.done, st, s.inf, s.outf⟩ _ (by simp [h0.1])
        (by simp only [List.length_cons] at hbound; simpa using by omega)]
    have := ih ⟨s.done ++ [st], [], s.inf, s.outf⟩ rest rfl
      (fun st' h => hst st' (by simpa using Or.inr (by simpa using h)))
      (fun st' h => hcd st' (by simpa using Or.inr (by simpa using h)))
      (by simp only [List.length_cons] at hbound; simp; omega)
    simpa [List.append_assoc] using this

theorem parseLoop_words_overflow (ws : List String) :
    ∀ (s : PState),
      (∀ w ∈ ws, w ≠ "|" ∧ w ≠ "<" ∧ w ≠ ">") → s.cur ≠ [] →
      s.cur.length ≤ MAX_ARGS - 1 → MAX_ARGS ≤ s.cur.length + ws.length →
      parseLoop s ws = .error "too many arguments for command" := by
  induction ws with
  | nil =>
    intro s _ _ hle hge
    exfalso
    simp only [List.length_nil, MAX_ARGS] at hle hge
    omega
  | cons w ws ih =>
    intro s hw hcur hle hge
    have hw0 := hw w (List.mem_cons_self _ _)
    by_cases hlt : s.cur.length < MAX_ARGS - 1
    · rw [show (w :: ws : List String) = [w] ++ ws from rfl,
        parseLoop_words [w] s ws (by simpa using hw0) hcur
          (by simp only [List.length_cons, List.length_nil]; omega)]
      exact ih ⟨s.done, s.cur ++ [w], s.inf, s.outf⟩
        (fun w' h => hw w' (List.mem_cons_of_mem _ h)) (by simp)
        (by simp; omega)
        (by simp only [List.length_cons] at hge; simp; omega)
    · exact parseLoop_word_overflow s w ws hw0.1 hw0.2.1 hw0.2.2
        (by simp [hcur]) (by omega)

theorem parse_tokens_plain (w : String) (ts : List String)
    (ha : w ≠ "and") (ho : w ≠ "or") :
    parse_tokens (w :: ts) =
      match parseLoop ⟨[], [], none, none⟩ (w :: ts) with
      | .error m => .err m
      | .ok (stages, i, o) => .ok ⟨stages, i, o, .COND_NONE⟩ := by
  simp [parse_tokens, stripCond, ha, ho]

theorem parse_tokens_words (ws : List String)
    (hne : ws ≠ [])
    (hw : ∀ w ∈ ws, w ≠ "|" ∧ w ≠ "<" ∧ w ≠ ">")
    (hhd : ws.head? ≠ some "and" ∧ ws.head? ≠ some "or") :
    (ws.length ≤ MAX_ARGS - 1 → parse_tokens ws = .ok ⟨[ws], none, none, .COND_NONE⟩)
    ∧ (MAX_ARGS ≤ ws.length → parse_tokens ws = .err "too many arguments for command") := by
  cases ws with
  | nil => exact absurd rfl hne
  | cons w ts =>
    simp only [List.head?_cons] at hhd
    have ha : w ≠ "and" := fun h => hhd.1 (by rw [h])
    have ho : w ≠ "or" := fun h => hhd.2 (by rw [h])
    rw [parse_tokens_plain w ts ha ho]
    constructor
    · intro hlen
      have hst := parseLoop_stage (w :: ts) ⟨[], [], none, none⟩ []
        (by simp) hw (by simp) hlen rfl
      simp only [List.append_nil] at hst
      rw [hst, parseLoop_nil]
      simp
    · intro hlen
      have hw0 := hw w (List.mem_cons_self _ _)
      have hfw := parseLoop_firstWord ⟨[], [], none, none⟩ w ts
        hw0.1 hw0.2.1 hw0.2.2 (by simp) rfl
      rw [hfw, parseLoop_words_overflow ts ⟨[], [w], none, none⟩
        (fun w' h => hw w' (List.mem_cons_of_mem _ h)) (by simp)
        (by simp [MAX_ARGS])
        (by simp only [List.length_cons] at hlen; simp; omega)]

theorem pipeJoin_cons (a : List String) (l : List (List String)) :
    pipeJoin (a :: l) = a ++ (if l = [] then [] else "|" :: pipeJoin l) := by
  cases l with
  | nil => simp [pipeJoin]
  | cons b l2 => rfl

theorem parse_tokens_pipeJoin (stages : List (List String))
    (hne : stages ≠ [])
    (hst : ∀ st ∈ stages, st ≠ [] ∧ st.length ≤ MAX_ARGS - 1 ∧
      ∀ w ∈ st, w ≠ "|" ∧ w ≠ "<" ∧ w ≠ ">")
    (hcd : ∀ st ∈ stages, st.head? ≠ some "and" ∧ st.head? ≠ some "or") :
    (stages.length ≤ MAX_COMMANDS →
      parse_tokens (pipeJoin stages) = .ok ⟨stages, none, none, .COND_NONE⟩)
    ∧ (stages.length = MAX_COMMANDS → ∀ more : List String,
      parse_tokens (pipeJoin stages ++ "|" :: more) =
        .err "too many commands in pipeline") := by
  obtain ⟨st0, rest0, rfl⟩ : ∃ a l, stages = a :: l := by
    cases stages with
    | nil => exact absurd rfl hne
    | cons a l => exact ⟨a, l, rfl⟩
  obtain ⟨w, ws, rfl⟩ : ∃ w ws, st0 = w :: ws := by
    rcases hst st0 (List.mem_cons_self _ _) with ⟨h, -⟩
    cases st0 with
    | nil => exact absurd rfl h
    | cons w ws => exact ⟨w, ws, rfl⟩
  have hhd := hcd (w :: ws) (List.mem_cons_self _ _)
  simp only [List.head?_cons] at hhd
  have ha : w ≠ "and" := fun h => hhd.1 (by rw [h])
  have ho : w ≠ "or" := fun h => hhd.2 (by rw [h])
  have hdec := List.dropLast_append_getLast
    (show (w :: ws) :: rest0 ≠ [] by simp)
  have hlast : (((w :: ws) :: rest0).getLast (by simp)) ≠ [] := by
    rcases hst _ (List.getLast_mem (l := (w :: ws) :: rest0) (by simp)) with ⟨h, -⟩
    exact h
  have e0 : ∀ tail : List String,
      pipeJoin ((w :: ws) :: rest0) ++ tail =
        w :: (ws ++ ((if rest0 = [] then [] else "|" :: pipeJoin rest0) ++ tail)) := by
    intro tail
    rw [pipeJoin_cons]
    simp [List.append_assoc]
  constructor
  · intro hlen
    have hrun := parseLoop_pipeJoin
      (((w :: ws) :: rest0).dropLast) (((w :: ws) :: rest0).getLast (by simp))
      ⟨[], [], none, none⟩ [] rfl
      (by rw [hdec]; exact hst)
      (by rw [hdec]; exact hcd)
      (by
        simp only [List.length_dropLast, List.length_cons, List.length_nil,
          List.length_append, MAX_COMMANDS]
        simp only [List.length_cons, MAX_COMMANDS] at hlen
        omega)
    simp only [List.nil_append] at hrun
    rw [hdec] at hrun
    have etok : parse_tokens (pipeJoin ((w :: ws) :: rest0)) =
        parse_tokens (pipeJoin ((w :: ws) :: rest0) ++ []) := by simp
    rw [etok, e0 [], parse_tokens_plain _ _ ha ho, ← e0 [], hrun, parseLoop_nil]
    simp only [hlast, if_neg, List.nil_append]
    simp [hdec]
  · intro hlen more
    have hrun := parseLoop_pipeJoin
      (((w :: ws) :: rest0).dropLast) (((w :: ws) :: rest0).getLast (by simp))
      ⟨[], [], none, none⟩ ("|" :: more) rfl
      (by rw [hdec]; exact hst)
      (by rw [hdec]; exact hcd)
      (by
        simp only [List.length_dropLast, List.length_cons, List.length_nil,
          List.length_append, MAX_COMMANDS]
        simp only [List.length_cons, MAX_COMMANDS] at hlen
        omega)
    simp only [List.nil_append] at hrun
    rw [hdec] at hrun
    rw [e0 ("|" :: more), parse_tokens_plain _ _ ha ho, ← e0 ("|" :: more), hrun,
      parseLoop_pipe_overflow _ _ hlast
        (by
          simp only [List.nil_append, List.length_dropLast, List.length_cons]
          simp only [List.length_cons, MAX_COMMANDS] at hlen
          simp only [MAX_COMMANDS]
          omega)]

theorem pstep_parseLoop {a b : PState × List String} (h : PStep a b) :
    parseLoop a.1 a.2 = parseLoop b.1 b.2 := by
  cases h with
  | pipe done cur inf outf r hc hl =>
    exact parseLoop_pipe ⟨done, cur, inf, outf⟩ r hc hl
  | redir_in done cur outf f r =>
    exact parseLoop_redir_in ⟨done, cur, none, outf⟩ f r rfl
  | redir_out done cur inf f r =>
    exact parseLoop_redir_out ⟨done, cur, inf, none⟩ f r rfl
  | word done cur inf outf t r h1 h2 h3 hco hlen =>
    exact parseLoop_word ⟨done, cur, inf, outf⟩ t r h1 h2 h3 hco hlen

theorem reach_parseLoop {a b : PState × List String}
    (h : Relation.ReflTransGen PStep a b) :
    parseLoop a.1 a.2 = parseLoop b.1 b.2 := by
  induction h with
  | refl => rfl
  | tail _ hstep ih => exact ih.trans (pstep_parseLoop hstep)

/-! ## Claim theorems about the parser -/

/-- C3 (amended): the parser accepts at most `MAX_ARGS - 1 = 63` word
arguments in a stage.  For every line tokenizing to a non-empty sequence
of plain word tokens (no operators, head not a conditional), parsing
succeeds with that single stage when there are at most 63 words, and a
64th word in the stage is a syntax error (`parse_line` returns -1 with
the job reset). -/
theorem parse_line_arg_limit (line : String) (ws : List String) (job0 : job_t)
    (htok : simple_tokenize line = ws)
    (hne : ws ≠ [])
    (hw : ∀ w ∈ ws, w ≠ "|" ∧ w ≠ "<" ∧ w ≠ ">")
    (hhd : ws.head? ≠ some "and" ∧ ws.head? ≠ some "or") :
    (ws.length ≤ MAX_ARGS - 1 →
      parse_line line job0 = (1, ⟨[ws], none, none, .COND_NONE⟩))
    ∧ (MAX_ARGS ≤ ws.length → parse_line line job0 = (-1, emptyJob)) := by
  have h := parse_tokens_words ws hne hw hhd
  unfold parse_line
  rw [htok]
  constructor
  · intro hl
    rw [h.1 hl]
  · intro hl
    rw [h.2 hl]

set_option maxRecDepth 100000 in
set_option maxHeartbeats 1000000 in
/-- C3 witness: a single stage of 63 word arguments parses successfully. -/
theorem parse_line_arg_limit_witness :
    parse_line (String.intercalate " " (List.replicate 63 "a")) emptyJob =
      (1, ⟨[List.replicate 63 "a"], none, none, .COND_NONE⟩) :=
  (parse_line_arg_limit (String.intercalate " " (List.replicate 63 "a"))
    (List.replicate 63 "a") emptyJob (by decide) (by decide) (by decide)
    (by decide)).1 (by decide)

set_option maxRecDepth 100000 in
set_option maxHeartbeats 1000000 in
/-- C3 counterexample: a stage of exactly 64 word arguments does NOT
parse successfully; `parse_line` reports a syntax error, refuting the
claim that up to 64 arguments per stage are accepted. -/
theorem parse_line_64_args_is_error :
    parse_line (String.intercalate " " (List.replicate 64 "a")) emptyJob =
      (-1, emptyJob) := by
  have h := parse_tokens_words (List.replicate 64 "a") (by decide) (by decide)
    (by decide)
  unfold parse_line
  rw [show simple_tokenize (String.intercalate " " (List.replicate 64 "a")) =
      List.replicate 64 "a" from by decide,
    h.2 (by decide)]

/-- C4: the parser accepts pipelines of up to `MAX_COMMANDS = 64` stages,
and a `|` token that would open a 65th stage is the syntax error "too
many commands in pipeline" (so `parse_line` returns -1 with the job
reset). -/
theorem parse_line_stage_limit (stages : List (List String)) (line1 line2 : String)
    (more : List String) (job0 : job_t)
    (hne : stages ≠ [])
    (hst : ∀ st ∈ stages, st ≠ [] ∧ st.length ≤ MAX_ARGS - 1 ∧
      ∀ w ∈ st, w ≠ "|" ∧ w ≠ "<" ∧ w ≠ ">")
    (hcd : ∀ st ∈ stages, st.head? ≠ some "and" ∧ st.head? ≠ some "or") :
    (stages.length ≤ MAX_COMMANDS → simple_tokenize line1 = pipeJoin stages →
      parse_line line1 job0 = (1, ⟨stages, none, none, .COND_NONE⟩))
    ∧ (stages.length = MAX_COMMANDS →
      simple_tokenize line2 = pipeJoin stages ++ "|" :: more →
      parse_line line2 job0 = (-1, emptyJob)) := by
  have h := parse_tokens_pipeJoin stages hne hst hcd
  constructor
  · intro hl htok
    unfold parse_line
    rw [htok, h.1 hl]
  · intro hl htok
    unfold parse_line
    rw [htok, h.2 hl more]

set_option maxRecDepth 100000 in
set_option maxHeartbeats 1000000 in
/-- C4 witness: 64 single-word stages parse successfully, and one more
`|` after them is a syntax error. -/
theorem parse_line_stage_limit_witness :
    parse_line (String.intercalate " | " (List.replicate 64 "a")) emptyJob =
      (1, ⟨List.replicate 64 ["a"], none, none, .COND_NONE⟩)
    ∧ parse_line (String.intercalate " | " (List.replicate 64 "a") ++ " |") emptyJob =
      (-1, emptyJob) :=
  ⟨(parse_line_stage_limit (List.replicate 64 ["a"])
      (String.intercalate " | " (List.replicate 64 "a"))
      (String.intercalate " | " (List.replicate 64 "a") ++ " |") [] emptyJob
      (by decide) (by decide) (by decide)).1 (by decide) (by decide),
   (parse_line_stage_limit (List.replicate 64 ["a"])
      (String.intercalate " | " (List.replicate 64 "a"))
      (String.intercalate " | " (List.replicate 64 "a") ++ " |") [] emptyJob
      (by decide) (by decide) (by decide)).2 (by decide) (by decide)⟩

/-- C5: a token `and`/`or` standing as the first word of a stage of index
greater than zero (the parser being at the start of a later stage:
`cur = []`, `done ≠ []`) makes `parse_line` fail with -1, however the
parse reached that configuration. -/
theorem parse_line_cond_after_pipe (line : String) (toks ws : List String)
    (cond : condition_t) (s : PState) (c : String) (rest : List String) (job0 : job_t)
    (htok : simple_tokenize line = toks)
    (hstrip : stripCond toks = (cond, ws))
    (hreach : Relation.ReflTransGen PStep (⟨⟨[], [], none, none⟩, ws⟩) (⟨s, c :: rest⟩))
    (hc : c = "and" ∨ c = "or")
    (hcur : s.cur = []) (hdone : s.done ≠ []) :
    parse_line line job0 = (-1, emptyJob) := by
  have herr : parseLoop ⟨[], [], none, none⟩ ws =
      .error "conditional may not appear after a pipe" := by
    have h := reach_parseLoop hreach
    simp only at h
    rw [h, parseLoop_cond_after_pipe s c rest hc hcur hdone]
  have hws : ws ≠ [] := by
    intro h
    subst h
    rcases Relation.ReflTransGen.cases_head hreach with heq | ⟨x, hstep, -⟩
    · simp at heq
    · cases hstep
  have htoks : toks ≠ [] := by
    intro h
    subst h
    simp only [stripCond, Prod.mk.injEq] at hstrip
    exact hws hstrip.2.symm
  unfold parse_line
  rw [htok]
  unfold parse_tokens
  simp only [htoks, if_false, hstrip, hws, herr]

/-- C5 witness: the line `a | and` fails to parse. -/
theorem parse_line_cond_after_pipe_witness :
    parse_line "a | and" emptyJob = (-1, emptyJob) :=
  parse_line_cond_after_pipe "a | and" ["a", "|", "and"] ["a", "|", "and"]
    .COND_NONE ⟨[["a"]], [], none, none⟩ "and" [] emptyJob (by decide) (by decide)
    (Relation.ReflTransGen.head
      (PStep.word [] [] none none "a" ["|", "and"] (by decide) (by decide)
        (by decide) (by simp) (by simp [MAX_ARGS]))
      (Relation.ReflTransGen.head
        (PStep.pipe [] ["a"] none none ["and"] (by simp) (by simp [MAX_COMMANDS]))
        Relation.ReflTransGen.refl))
    (Or.inl rfl) rfl (by simp)

/-- C6: redirection parsing is order-independent: a line tokenizing to
`cmd < in > out` and a line tokenizing to `cmd > out < in` parse to the
same Job (one stage `[cmd]`, infile `in`, outfile `out`, no condition). -/
theorem parse_line_redirect_order (cmd infn outn : String) (line1 line2 : String)
    (job0 : job_t)
    (h1 : simple_tokenize line1 = [cmd, "<", infn, ">", outn])
    (h2 : simple_tokenize line2 = [cmd, ">", outn, "<", infn])
    (hcmd : cmd ≠ "|" ∧ cmd ≠ "<" ∧ cmd ≠ ">" ∧ cmd ≠ "and" ∧ cmd ≠ "or") :
    parse_line line1 job0 = (1, ⟨[[cmd]], some infn, some outn, .COND_NONE⟩)
    ∧ parse_line line2 job0 = (1, ⟨[[cmd]], some infn, some outn, .COND_NONE⟩) := by
  obtain ⟨hp, hl, hg, ha, ho⟩ := hcmd
  constructor
  · unfold parse_line
    rw [h1, parse_tokens_plain _ _ ha ho,
      parseLoop_firstWord ⟨[], [], none, none⟩ cmd _ hp hl hg (by simp) rfl,
      parseLoop_redir_in _ infn _ rfl,
      parseLoop_redir_out _ outn _ rfl,
      parseLoop_nil]
    simp
  · unfold parse_line
    rw [h2, parse_tokens_plain _ _ ha ho,
      parseLoop_firstWord ⟨[], [], none, none⟩ cmd _ hp hl hg (by simp) rfl,
      parseLoop_redir_out _ outn _ rfl,
      parseLoop_redir_in _ infn _ rfl,
      parseLoop_nil]
    simp

/-- C6 witness: `c < i > o` and `c > o < i` parse to the same Job. -/
theorem parse_line_redirect_order_witness :
    parse_line "c < i > o" emptyJob =
      (1, ⟨[["c"]], some "i", some "o", .COND_NONE⟩)
    ∧ parse_line "c > o < i" emptyJob =
      (1, ⟨[["c"]], some "i", some "o", .COND_NONE⟩) :=
  parse_line_redirect_order "c" "i" "o" "c < i > o" "c > o < i" emptyJob
    (by decide) (by decide) (by decide)

/-- C10: whenever `parse_line` returns -1, the caller's job is the fully
reset empty job: no stages, no redirection filenames, no condition. -/
theorem parse_line_error_resets_job (line : String) (job0 : job_t)
    (h : (parse_line line job0).1 = -1) :
    (parse_line line job0).2 = emptyJob := by
  unfold parse_line at h ⊢
  rcases hp : parse_tokens (simple_tokenize line) with _ | m | j <;> simp_all

/-- C10 witness: the syntactically invalid line `a |` returns -1 and the
reset job. -/
theorem parse_line_error_resets_job_witness :
    (parse_line "a |" emptyJob).1 = -1 ∧ (parse_line "a |" emptyJob).2 = emptyJob :=
  ⟨by decide, parse_line_error_resets_job "a |" emptyJob (by decide)⟩

/-! ## Execution-engine lemmas -/

theorem execute_job_action (env : Env) (job : job_t) :
    (execute_job env job).action =
      (if job.argvv.any (fun s => s.head? = some "die") then .EXEC_DIE
       else if job.argvv.any (fun s => s.head? = some "exit") then .EXEC_EXIT
       else .EXEC_CONTINUE) := by
  obtain ⟨argvv, infl, outfl, cnd⟩ := job
  rcases argvv with _ | ⟨s0, rest⟩
  · rfl
  · rcases rest with _ | ⟨s1, rest2⟩
    · rcases s0 with _ | ⟨cmd, args⟩
      · rfl
      · by_cases hb : is_builtin cmd
        · by_cases hr : env.parentRedirOk infl outfl
          · have hcases : cmd = "cd" ∨ cmd = "pwd" ∨ cmd = "which" ∨
                cmd = "exit" ∨ cmd = "die" := by
              simpa [is_builtin, or_assoc] using hb
            rcases hcases with h | h | h | h | h <;> subst h <;>
              simp [execute_job, run_builtin_parent, builtin_exit, builtin_die, hb, hr]
          · simp [execute_job, hb, hr]
        · simp [execute_job, hb]
    · rcases s0 with _ | ⟨cmd, args⟩ <;> rfl

theorem forkPhase_none (env : Env) :
    ∀ (stages : List (List String)) (i : Nat),
      (∀ s ∈ stages, s ≠ []) →
      (∀ k, i ≤ k → k < i + stages.length → env.forkOk k) →
      forkPhase env stages i = none := by
  intro stages
  induction stages with
  | nil => intro i _ _; rfl
  | cons s rest ih =>
    intro i hne hfork
    have hs : s ≠ [] := hne s (List.mem_cons_self _ _)
    have hf : env.forkOk i = true := hfork i (Nat.le_refl _) (by simp)
    simp only [forkPhase, hs, if_neg, hf, if_true]
    · exact ih (i + 1) (fun s' h => hne s' (List.mem_cons_of_mem _ h))
        (fun k h1 h2 => hfork k (by omega) (by simp only [List.length_cons]; omega))

theorem foldl_waitStep_const (env : Env) (n : Nat) :
    ∀ (l : List Nat) (st : Nat), (∀ i ∈ l, i ≠ n - 1) →
      l.foldl (waitStep env n) st = st := by
  intro l
  induction l with
  | nil => intro st _; rfl
  | cons i l2 ih =>
    intro st hl
    have hi : i ≠ n - 1 := hl i (List.mem_cons_self _ _)
    have hstep : waitStep env n st i = st := by
      simp [waitStep, hi]
    rw [List.foldl_cons, hstep]
    exact ih st (fun j h => hl j (List.mem_cons_of_mem _ h))

theorem foldl_waitStep_range (env : Env) (n : Nat) (h1 : 1 ≤ n) :
    (List.range n).foldl (waitStep env n) 1 =
      if env.waitOk (n - 1) ∧ env.exited (n - 1) then env.code (n - 1) else 1 := by
  obtain ⟨m, rfl⟩ : ∃ m, n = m + 1 := ⟨n - 1, by omega⟩
  rw [List.range_succ, List.foldl_append,
    foldl_waitStep_const env (m + 1) (List.range m) 1
      (by intro i hi; have := List.mem_range.mp hi; omega)]
  simp only [List.foldl_cons, List.foldl_nil, waitStep, Nat.add_sub_cancel]
  by_cases hw : env.waitOk m = true <;> by_cases hex : env.exited m = true <;>
    simp [hw, hex]

theorem run_pipeline_success (env : Env) (job : job_t)
    (h2 : 2 ≤ job.argvv.length)
    (hne : ∀ s ∈ job.argvv, s ≠ [])
    (hpipe : ∀ i, i < job.argvv.length - 1 → env.pipeOk i)
    (hfork : ∀ i, i < job.argvv.length → env.forkOk i) :
    run_pipeline env job =
      ((if env.waitOk (job.argvv.length - 1) ∧ env.exited (job.argvv.length - 1)
          then env.code (job.argvv.length - 1) else 1),
        List.range job.argvv.length, List.range job.argvv.length) := by
  have hn : ¬ job.argvv.length < 2 := by omega
  have hall : (List.range (job.argvv.length - 1)).all env.pipeOk = true := by
    rw [List.all_eq_true]
    intro i hi
    exact hpipe i (List.mem_range.mp hi)
  have hforkall := forkPhase_none env job.argvv 0 hne
    (fun k _ hk => hfork k (by omega))
  unfold run_pipeline
  rw [if_neg hn]
  simp only [hall, if_true, hforkall]
  rw [foldl_waitStep_range env job.argvv.length (by omega)]

/-! ## Claim theorems about the execution engine -/

/-- C1: `execute_job` returns a terminating action (`EXEC_EXIT` or
`EXEC_DIE`) if and only if some stage's command name is literally `exit`
or `die`, wherever in the job it occurs; a job containing neither always
returns `EXEC_CONTINUE`. -/
theorem execute_job_terminates_iff (env : Env) (job : job_t) :
    (((execute_job env job).action = .EXEC_EXIT ∨
        (execute_job env job).action = .EXEC_DIE) ↔
      ∃ s ∈ job.argvv, s.head? = some "exit" ∨ s.head? = some "die")
    ∧ ((¬ ∃ s ∈ job.argvv, s.head? = some "exit" ∨ s.head? = some "die") →
      (execute_job env job).action = .EXEC_CONTINUE) := by
  by_cases hd : job.argvv.any (fun s => s.head? = some "die") = true
  · obtain ⟨s, hs, h⟩ := List.any_eq_true.mp hd
    have hex : ∃ s ∈ job.argvv, s.head? = some "exit" ∨ s.head? = some "die" :=
      ⟨s, hs, Or.inr (by simpa using h)⟩
    rw [execute_job_action, if_pos hd]
    exact ⟨⟨fun _ => hex, fun _ => Or.inr rfl⟩, fun hno => absurd hex hno⟩
  · by_cases he : job.argvv.any (fun s => s.head? = some "exit") = true
    · obtain ⟨s, hs, h⟩ := List.any_eq_true.mp he
      have hex : ∃ s ∈ job.argvv, s.head? = some "exit" ∨ s.head? = some "die" :=
        ⟨s, hs, Or.inl (by simpa using h)⟩
      rw [execute_job_action, if_neg hd, if_pos he]
      exact ⟨⟨fun _ => hex, fun _ => Or.inl rfl⟩, fun hno => absurd hex hno⟩
    · have hno : ¬ ∃ s ∈ job.argvv, s.head? = some "exit" ∨ s.head? = some "die" := by
        rintro ⟨s, hs, h | h⟩
        · exact he (List.any_eq_true.mpr ⟨s, hs, by simpa using h⟩)
        · exact hd (List.any_eq_true.mpr ⟨s, hs, by simpa using h⟩)
      rw [execute_job_action, if_neg hd, if_neg he]
      refine ⟨⟨fun hcontra => ?_, fun hx => absurd hx hno⟩, fun _ => rfl⟩
      rcases hcontra with h | h <;> exact absurd h (by decide)

/-- C1 witness: a job with `exit` buried mid-pipeline yields a
terminating action. -/
theorem execute_job_terminates_iff_witness :
    (execute_job
        ⟨fun _ => false, fun _ => false, none, fun _ _ => true, fun _ => true,
          fun _ => true, fun _ => true, fun _ => true, fun _ => 0⟩
        ⟨[["a"], ["exit"], ["b"]], none, none, .COND_NONE⟩).action = .EXEC_EXIT
    ∨ (execute_job
        ⟨fun _ => false, fun _ => false, none, fun _ _ => true, fun _ => true,
          fun _ => true, fun _ => true, fun _ => true, fun _ => 0⟩
        ⟨[["a"], ["exit"], ["b"]], none, none, .COND_NONE⟩).action = .EXEC_DIE :=
  (execute_job_terminates_iff _ _).1.mpr ⟨["exit"], by decide, Or.inl rfl⟩

/-- C9: when a job contains both a `die` stage and an `exit` stage, the
abort action wins: `execute_job` returns `EXEC_DIE`. -/
theorem execute_job_die_precedence (env : Env) (job : job_t)
    (hd : ∃ s ∈ job.argvv, s.head? = some "die")
    (_he : ∃ s ∈ job.argvv, s.head? = some "exit") :
    (execute_job env job).action = .EXEC_DIE := by
  rw [execute_job_action]
  have hda : job.argvv.any (fun s => s.head? = some "die") = true := by
    obtain ⟨s, hs, h⟩ := hd
    exact List.any_eq_true.mpr ⟨s, hs, by simpa using h⟩
  simp [hda]

/-- C9 witness: `exit | die` (in that order) yields `EXEC_DIE`. -/
theorem execute_job_die_precedence_witness :
    (execute_job
        ⟨fun _ => false, fun _ => false, none, fun _ _ => true, fun _ => true,
          fun _ => true, fun _ => true, fun _ => true, fun _ => 0⟩
        ⟨[["exit"], ["die"]], none, none, .COND_NONE⟩).action = .EXEC_DIE :=
  execute_job_die_precedence _ _ (by decide) (by decide)

/-- C2: for a job of `n ≥ 2` non-empty stages whose pipes and forks all
succeed, the status `execute_job` reports is exactly the last stage's
exit code (`WEXITSTATUS` of stage `n-1`), independent of every earlier
stage's status, and the engine forks and waits for all `n` children. -/
theorem execute_job_multi (env : Env) (job : job_t) (h2 : 2 ≤ job.argvv.length) :
    (execute_job env job).status = (run_pipeline env job).1
    ∧ (execute_job env job).forked = (run_pipeline env job).2.1
    ∧ (execute_job env job).waited = (run_pipeline env job).2.2 := by
  obtain ⟨argvv, infl, outfl, cnd⟩ := job
  rcases argvv with _ | ⟨s0, rest⟩
  · simp at h2
  · rcases rest with _ | ⟨s1, rest2⟩
    · simp at h2
    · rcases s0 with _ | ⟨c, a⟩ <;> exact ⟨rfl, rfl, rfl⟩

theorem execute_job_pipeline_status (env : Env) (job : job_t)
    (h2 : 2 ≤ job.argvv.length)
    (hne : ∀ s ∈ job.argvv, s ≠ [])
    (hpipe : ∀ i, i < job.argvv.length - 1 → env.pipeOk i)
    (hfork : ∀ i, i < job.argvv.length → env.forkOk i)
    (hwait : env.waitOk (job.argvv.length - 1))
    (hexit : env.exited (job.argvv.length - 1)) :
    (execute_job env job).status = env.code (job.argvv.length - 1)
    ∧ (execute_job env job).forked = List.range job.argvv.length
    ∧ (execute_job env job).waited = List.range job.argvv.length := by
  obtain ⟨hs, hf, hw⟩ := execute_job_multi env job h2
  rw [hs, hf, hw, run_pipeline_success env job h2 hne hpipe hfork]
  exact ⟨if_pos ⟨hwait, hexit⟩, rfl, rfl⟩

/-- C2 witness: a concrete two-stage pipeline whose last stage exits 6
reports status 6 and forks/waits exactly children 0 and 1. -/
theorem execute_job_pipeline_status_witness :
    (execute_job
        ⟨fun _ => false, fun _ => false, none, fun _ _ => true, fun _ => true,
          fun _ => true, fun _ => true, fun _ => true, fun _ => 6⟩
        ⟨[["a"], ["b"]], none, none, .COND_NONE⟩).status = 6
    ∧ (execute_job
        ⟨fun _ => false, fun _ => false, none, fun _ _ => true, fun _ => true,
          fun _ => true, fun _ => true, fun _ => true, fun _ => 6⟩
        ⟨[["a"], ["b"]], none, none, .COND_NONE⟩).forked = List.range 2
    ∧ (execute_job
        ⟨fun _ => false, fun _ => false, none, fun _ _ => true, fun _ => true,
          fun _ => true, fun _ => true, fun _ => true, fun _ => 6⟩
        ⟨[["a"], ["b"]], none, none, .COND_NONE⟩).waited = List.range 2 :=
  execute_job_pipeline_status _ _ (by decide) (by decide)
    (fun _ _ => rfl) (fun _ _ => rfl) rfl rfl

theorem spaceJoin_shift (a b : String) (r : List String) :
    spaceJoin ((a ++ " " ++ b) :: r) = a ++ " " ++ spaceJoin (b :: r) := by
  cases r with
  | nil => simp [spaceJoin, String.append_assoc]
  | cons c r2 => simp [spaceJoin, String.append_assoc]

theorem dieJoin_eq_spaceJoin :
    ∀ (rest : List String) (a : String), dieJoin (a :: rest) = spaceJoin (a :: rest) := by
  intro rest
  induction rest with
  | nil => intro a; rfl
  | cons b r ih =>
    intro a
    have h1 : dieJoin (a :: b :: r) = dieJoin ((a ++ " " ++ b) :: r) := rfl
    rw [h1, ih (a ++ " " ++ b), spaceJoin_shift]
    rfl

/-- C7: `die` writes its arguments space-joined plus a newline to the
error stream (nothing at all when there are no arguments), always reports
failure (status 1), and signals `EXEC_DIE`; in particular
`die a b` writes exactly "a b\n". -/
theorem builtin_die_spec :
    (∀ (name : String) (args : List String),
      builtin_die (name :: args) =
        (1, (if args = [] then "" else spaceJoin args ++ "\n"), .EXEC_DIE))
    ∧ builtin_die ["die", "a", "b"] = (1, "a b\n", .EXEC_DIE)
    ∧ builtin_die ["die"] = (1, "", .EXEC_DIE) := by
  refine ⟨?_, by decide, rfl⟩
  intro name args
  cases args with
  | nil => rfl
  | cons a rest =>
    simp [builtin_die, dieJoin_eq_spaceJoin]

/-- C7 witness: `die` with no arguments writes nothing, fails, aborts. -/
theorem builtin_die_spec_witness :
    builtin_die ["die"] = (1, "", .EXEC_DIE) :=
  builtin_die_spec.2.2

theorem is_builtin_no_slash (name : String) (h : is_builtin name = true) :
    name.data.contains '/' = false := by
  have hcases : name = "cd" ∨ name = "pwd" ∨ name = "which" ∨
      name = "exit" ∨ name = "die" := by
    simpa [is_builtin, or_assoc] using h
  rcases hcases with h | h | h | h | h <;> subst h <;> decide

/-- C8: `which` of any builtin name fails with no output (and external
resolution never finds a builtin name); `which` with an argument count
other than one fails silently, as does a failed resolution; a successful
resolution prints the resolved path. -/
theorem builtin_which_spec (fs : String → Bool) :
    (∀ name ∈ (["cd", "pwd", "which", "exit", "die"] : List String),
      builtin_which fs ["which", name] = (1, "") ∧
        resolve_program_path fs name = none)
    ∧ (∀ argv : List String, argv.length ≠ 2 → builtin_which fs argv = (1, ""))
    ∧ (∀ name : String, is_builtin name = false →
        resolve_program_path fs name = none → builtin_which fs ["which", name] = (1, ""))
    ∧ (∀ name p : String, resolve_program_path fs name = some p →
        builtin_which fs ["which", name] = (0, p ++ "\n")) := by
  refine ⟨?_, ?_, ?_, ?_⟩
  · intro name hm
    fin_cases hm <;> exact ⟨rfl, rfl⟩
  · intro argv h
    rcases argv with _ | ⟨a, _ | ⟨b, _ | ⟨c, r⟩⟩⟩
    · rfl
    · rfl
    · exact absurd rfl h
    · rfl
  · intro name hb hr
    simp [builtin_which, hb, hr]
  · intro name p hr
    cases hbn : is_builtin name with
    | false => simp [builtin_which, hbn, hr]
    | true =>
      exfalso
      have hmem : ('/' : Char) ∉ name.data := by simpa using is_builtin_no_slash name hbn
      simp [resolve_program_path, hmem, hbn] at hr

/-- C8 witness: `which cd` fails silently whatever the filesystem; with a
filesystem where everything is executable, `which ls` reports the first
search directory's candidate. -/
theorem builtin_which_spec_witness :
    builtin_which (fun _ => false) ["which", "cd"] = (1, "")
    ∧ builtin_which (fun _ => true) ["which", "ls"] = (0, "/usr/local/bin/ls" ++ "\n") :=
  ⟨((builtin_which_spec (fun _ => false)).1 "cd" (by decide)).1,
    (builtin_which_spec (fun _ => true)).2.2.2 "ls" "/usr/local/bin/ls" (by decide)⟩

end Mysh
